import Mathlib

/-!
Verification of the `aelog` structured-logging package (Go) against its
natural-language specification.  The Go sources are shallowly embedded:
pure functions become Lean functions, Go slices with their backing arrays
become an explicit memory model where aliasing matters, `panic` becomes
`Option.none`, and the external JSON emitter is a function parameter.
-/

namespace Aelog

/-! ## Data model: attribute values (embedding of `slog.Value` / `slog.Attr`)

`slog.Value` is a tagged union.  We embed the kinds the package manipulates:
strings, integers, booleans, levels, source locations and groups.  A group
holds a list of attributes; an attribute is a key/value pair. -/

/-- Embedding of `slog.Source`: function, file and line of a call site. -/
structure Source where
  function : String
  file : String
  line : Int
deriving DecidableEq, Repr

inductive Value where
  | str (s : String)
  | int (n : Int)
  | bool (b : Bool)
  | level (l : Int)
  | source (s : Option Source)
  | group (attrs : List (String × Value))

/-- Embedding of `slog.Attr`: a key/value pair. -/
abbrev Attr := String × Value

def Attr.key (a : Attr) : String := a.1

def Attr.value (a : Attr) : Value := a.2

def Attr.mk (k : String) (v : Value) : Attr := (k, v)

/-! ## Levels and severities (`level.go`)

`slog.Level` is an integer type; the standard levels are Debug = -4,
Info = 0, Warn = 4, Error = 8.  The package adds (from the `const` block
in `level.go`, where `iota` counts the ConstSpecs):
`LevelCritical = LevelError + 4*1`, `LevelAlert = LevelError + 4*2`,
`LevelEmergency = LevelError + 4*3`, `LevelNotice = (LevelInfo+LevelWarn)/2`. -/

def LevelDebug : Int := -4
def LevelInfo : Int := 0
def LevelWarn : Int := 4
def LevelError : Int := 8
def LevelCritical : Int := LevelError + 4 * 1
def LevelAlert : Int := LevelError + 4 * 2
def LevelEmergency : Int := LevelError + 4 * 3
def LevelNotice : Int := (LevelInfo + LevelWarn) / 2

/-- Embedding of `severityForLevel` (`level.go`): a switch over ascending
thresholds, first match wins, `EMERGENCY` as the default case. -/
def severityForLevel (l : Int) : String :=
  if l ≤ LevelDebug then "DEBUG"
  else if l ≤ LevelInfo then "INFO"
  else if l ≤ LevelNotice then "NOTICE"
  else if l ≤ LevelWarn then "WARNING"
  else if l ≤ LevelError then "ERROR"
  else if l ≤ LevelCritical then "CRITICAL"
  else if l ≤ LevelAlert then "ALERT"
  else "EMERGENCY"

/-- The eight backend severity strings, in ascending severity order. -/
def severities : List String :=
  ["DEBUG", "INFO", "NOTICE", "WARNING", "ERROR", "CRITICAL", "ALERT", "EMERGENCY"]

/-- The named thresholds in ascending order, paired with their severity
strings, as the spec lists them ("compare against ascending thresholds
Debug, Info, Notice, Warn, Error, Critical, Alert in order"). -/
def namedThresholds : List (Int × String) :=
  [(LevelDebug, "DEBUG"), (LevelInfo, "INFO"), (LevelNotice, "NOTICE"),
   (LevelWarn, "WARNING"), (LevelError, "ERROR"), (LevelCritical, "CRITICAL"),
   (LevelAlert, "ALERT")]

/-- Spec-side severity mapping, following the spec's words: "return the
first named severity whose threshold is ≥ level; if none match, return
EMERGENCY". -/
def severitySpec (l : Int) : String :=
  match namedThresholds.find? (fun p => l ≤ p.1) with
  | some p => p.2
  | none => "EMERGENCY"

/-- Position of a severity string in the ascending severity order
(DEBUG < INFO < NOTICE < WARNING < ERROR < CRITICAL < ALERT < EMERGENCY). -/
def severityRank (s : String) : Nat :=
  if s = "DEBUG" then 0
  else if s = "INFO" then 1
  else if s = "NOTICE" then 2
  else if s = "WARNING" then 3
  else if s = "ERROR" then 4
  else if s = "CRITICAL" then 5
  else if s = "ALERT" then 6
  else if s = "EMERGENCY" then 7
  else 8

/-! ### Severity lemmas -/

theorem severityForLevel_eq_spec (l : Int) : severityForLevel l = severitySpec l := by
  unfold severityForLevel severitySpec namedThresholds
  simp only [List.find?]
  split_ifs <;> simp_all only [decide_True, decide_False]

theorem severityRank_severityForLevel (l : Int) : severityRank (severityForLevel l) =
    if l ≤ -4 then 0 else if l ≤ 0 then 1 else if l ≤ 2 then 2
    else if l ≤ 4 then 3 else if l ≤ 8 then 4 else if l ≤ 12 then 5
    else if l ≤ 16 then 6 else 7 := by
  unfold severityForLevel
  simp only [LevelDebug, LevelInfo, LevelNotice, LevelWarn, LevelError, LevelCritical, LevelAlert]
  norm_num
  split_ifs <;> decide

/-- C1: for every integer level `l`, `severityForLevel l` is exactly the
severity of the first threshold in the ascending order Debug, Info, Notice,
Warn, Error, Critical, Alert whose value is ≥ `l` (the spec-side mapping
`severitySpec`), it is always one of the eight severity strings, it is
`EMERGENCY` whenever `l` exceeds every named threshold, and the thresholds
satisfy: Notice is the midpoint of Info and Warn, and Critical, Alert,
Emergency are spaced at the fixed step 4 above Error.  The function is a
total Lean function, so it never fails. -/
theorem c1_severityForLevel_first_threshold :
    (∀ l : Int, severityForLevel l = severitySpec l) ∧
    (∀ l : Int, severityForLevel l ∈ severities) ∧
    (∀ l : Int, (∀ p ∈ namedThresholds, p.1 < l) → severityForLevel l = "EMERGENCY") ∧
    LevelNotice = (LevelInfo + LevelWarn) / 2 ∧
    LevelCritical = LevelError + 4 ∧
    LevelAlert = LevelCritical + 4 ∧
    LevelEmergency = LevelAlert + 4 := by
  refine ⟨severityForLevel_eq_spec, ?_, ?_, by decide, by decide, by decide, by decide⟩
  · intro l
    unfold severityForLevel severities
    split_ifs <;> simp
  · intro l h
    have ha := h (LevelAlert, "ALERT") (by simp [namedThresholds])
    unfold severityForLevel
    simp only [LevelDebug, LevelInfo, LevelNotice, LevelWarn, LevelError, LevelCritical,
      LevelAlert] at ha ⊢
    norm_num at ha ⊢
    split_ifs <;> first | rfl | omega

/-- Witness for C1: the level 21 exceeds every named threshold and maps to
`EMERGENCY`. -/
theorem c1_witness :
    (∀ p ∈ namedThresholds, p.1 < 21) ∧ severityForLevel 21 = "EMERGENCY" :=
  ⟨by decide, c1_severityForLevel_first_threshold.2.2.1 21 (by decide)⟩

set_option maxHeartbeats 2000000 in
/-- C8: `severityForLevel` is monotonically non-decreasing in the level with
respect to the severity order DEBUG < INFO < NOTICE < WARNING < ERROR <
CRITICAL < ALERT < EMERGENCY (measured by `severityRank`), and at the Notice
threshold — which is exactly the midpoint of the Info and Warn thresholds —
it returns `"NOTICE"`. -/
theorem c8_severity_monotone :
    (∀ l1 l2 : Int, l1 ≤ l2 →
      severityRank (severityForLevel l1) ≤ severityRank (severityForLevel l2)) ∧
    severityForLevel LevelNotice = "NOTICE" ∧
    LevelNotice = (LevelInfo + LevelWarn) / 2 := by
  refine ⟨?_, by decide, by decide⟩
  intro l1 l2 h
  rw [severityRank_severityForLevel, severityRank_severityForLevel]
  split_ifs <;> omega

/-- Witness for C8: monotonicity applied at the concrete pair 0 ≤ 5. -/
theorem c8_witness :
    (0 : Int) ≤ 5 ∧ severityRank (severityForLevel 0) ≤ severityRank (severityForLevel 5) :=
  ⟨by decide, c8_severity_monotone.1 0 5 (by decide)⟩

/-! ## Special output keys (`handler.go`) and the standard `slog` keys -/

def TimestampKey : String := "timestamp"
def SeverityKey : String := "severity"
def MessageKey : String := "message"
def SourceLocationKey : String := "sourceLocation"
def TextPayloadKey : String := "textPayload"
def JSONPayloadKey : String := "jsonPayload"

def slogTimeKey : String := "time"
def slogLevelKey : String := "level"
def slogMessageKey : String := "msg"
def slogSourceKey : String := "source"

/-! ## Attribute helpers (`attr.go`)

`optionalStrings` takes a variadic list of alternating keys and values and
panics on an odd number of arguments; a panic is embedded as `none`.  The
consuming loop keeps only pairs whose value is non-empty. -/

/-- The `for len(args) > 0` loop of `optionalStrings`, run on an even-length
argument list: take `args[0]`/`args[1]` as key/value, keep the pair when the
value is non-empty, continue with `args[2:]`. -/
def optionalStringsLoop : List String → List Attr
  | k :: v :: rest =>
    if v ≠ "" then Attr.mk k (Value.str v) :: optionalStringsLoop rest
    else optionalStringsLoop rest
  | _ => []

/-- Embedding of `optionalStrings` (`attr.go`): `none` models the
`panic("odd number of arguments")` branch. -/
def optionalStrings (args : List String) : Option (List Attr) :=
  if args.length = 0 then some []
  else if args.length % 2 ≠ 0 then none
  else some (optionalStringsLoop args)

/-- Embedding of `groupValue` (`attr.go`): wrap the attributes produced by
`optionalStrings` in a group value. -/
def groupValue (args : List String) : Option Value :=
  (optionalStrings args).map (fun attrs => Value.group attrs)

/-- Embedding of the `attr` helper (`attr.go`). -/
def attr (key : String) (value : Value) : Attr := Attr.mk key value

/-- Embedding of `customAttrs` (`attr.go`).  `recAttrs` stands for the
attributes of the `slog.Record` argument in iteration order (`r.Attrs`),
`attrs` for the handler's persistent attributes, `groups` for the open group
names innermost-first.  The Go code returns nil when
`len(attrs) + r.NumAttrs() == 0`, before the message-key filter and before
the group fold. -/
def customAttrs (recAttrs attrs : List Attr) (groups : List String) : List Attr :=
  if attrs.length + recAttrs.length = 0 then []
  else
    groups.foldl (fun acc g => [attr g (Value.group acc)])
      (attrs ++ recAttrs.filter (fun a => a.key ≠ MessageKey))

/-- The algorithm exactly as claim C2 words it: concatenate the persistent
attributes with the record attributes (excluding message-key ones), then
fold every open group name from innermost to outermost into a single nested
group attribute — with no special case for an empty attribute list. -/
def customAttrsClaim (recAttrs attrs : List Attr) (groups : List String) : List Attr :=
  groups.foldl (fun acc g => [attr g (Value.group acc)])
    (attrs ++ recAttrs.filter (fun a => a.key ≠ MessageKey))

/-! ## The attribute-rewrite hook (`replaceAttr`, `handler.go`) -/

/-- `strconv.Itoa` for the positive line numbers the code prints. -/
def itoa (n : Int) : String := toString n

/-- Embedding of `replaceAttr` (`handler.go`): at nesting depth 0 rename the
built-in `slog` keys to the backend keys, mapping the level to a severity
string, suppressing an empty (or non-string) message in favour of the JSON
payload, and resolving the source location into a `file`/`line`/`function`
group.  `none` models a panic inside `groupValue` (impossible here: the
argument list always has six elements, see `c10_optionalStrings_call_sites`). -/
def replaceAttr (groups : List String) (a : Attr) : Option Attr :=
  if groups.length > 0 then some a
  else
    let v := a.value
    if a.key = slogTimeKey then some (Attr.mk TimestampKey v)
    else if a.key = slogLevelKey then
      match v with
      | Value.level l => some (Attr.mk SeverityKey (Value.str (severityForLevel l)))
      | _ => some (Attr.mk SeverityKey v)
    else if a.key = slogMessageKey then
      match v with
      | Value.str s =>
        if s = "" then some (Attr.mk "" (Value.group []))
        else some (Attr.mk TextPayloadKey v)
      | _ => some (Attr.mk "" (Value.group []))
    else if a.key = slogSourceKey then
      let s : Source := match v with
        | Value.source (some src) => src
        | _ => ⟨"", "", 0⟩
      let line := if s.line > 0 then itoa s.line else ""
      (groupValue ["file", s.file, "line", line, "function", s.function]).map
        (fun gv => Attr.mk SourceLocationKey gv)
    else some a

/-! ### Claims about `customAttrs` and `replaceAttr` -/

/-- C2 counterexample: with no persistent attributes, no record attributes
and one open group `"g"`, the code returns no attribute at all, while the
claim's algorithm (concatenate, then fold every open group) would return the
single attribute `"g"` holding an empty group. -/
theorem c2_counterexample :
    customAttrs [] [] ["g"] = [] ∧
    customAttrsClaim [] [] ["g"] = [attr "g" (Value.group [])] ∧
    ([] : List Attr) ≠ [attr "g" (Value.group [])] :=
  ⟨rfl, rfl, by simp⟩

/-- C2 as amended: `customAttrs` concatenates the persistent attributes with
the record's attributes in order (excluding record attributes keyed by the
message key) and folds every open group name from innermost to outermost
into a single nested group attribute, **except** that when the persistent
attribute list and the record attribute list are both empty it yields no
attribute at all — even when groups are open; in particular an empty input
with no open group yields no attribute, not an empty group. -/
theorem c2_customAttrs_amended :
    (∀ (recAttrs attrs : List Attr) (groups : List String),
      customAttrs recAttrs attrs groups =
        if attrs.length + recAttrs.length = 0 then []
        else customAttrsClaim recAttrs attrs groups) ∧
    customAttrs [] [] [] = [] := by
  exact ⟨fun recAttrs attrs groups => rfl, rfl⟩

/-- C3, evaluated at the failing input: at depth 0 the code maps an
empty-string message attribute to the empty group `slog.Group("")`
(suppressing it) instead of emitting it under the message key, and maps a
non-empty message to the `textPayload` key, which differs from the backend's
message key `"message"`. -/
theorem c3_message_not_renamed_to_message_key :
    replaceAttr [] (Attr.mk slogMessageKey (Value.str "")) =
      some (Attr.mk "" (Value.group [])) ∧
    replaceAttr [] (Attr.mk slogMessageKey (Value.str "hi")) =
      some (Attr.mk TextPayloadKey (Value.str "hi")) ∧
    TextPayloadKey ≠ MessageKey ∧
    (Attr.mk "" (Value.group [])).key ≠ MessageKey := by
  refine ⟨rfl, rfl, by decide, by decide⟩

/-- C6: the rewrite hook is the identity away from the built-in keys: an
attribute presented at group-nesting depth > 0 is returned completely
unchanged, and at depth 0 every attribute whose key is none of the built-in
time, level, message and source keys is returned with key and value
unmodified. -/
theorem c6_replaceAttr_frame :
    (∀ (groups : List String) (a : Attr), groups ≠ [] → replaceAttr groups a = some a) ∧
    (∀ a : Attr,
      a.key ∉ [slogTimeKey, slogLevelKey, slogMessageKey, slogSourceKey] →
      replaceAttr [] a = some a) := by
  constructor
  · intro groups a h
    cases groups with
    | nil => exact absurd rfl h
    | cons g gs => simp [replaceAttr]
  · intro a h
    simp only [List.mem_cons, List.mem_singleton, not_or] at h
    obtain ⟨h1, h2, h3, h4⟩ := h
    simp [replaceAttr, h1, h2, h3, h4]

/-- Witness for C6: a custom attribute passes through unchanged both inside
a group and at the top level. -/
theorem c6_witness :
    replaceAttr ["g"] (Attr.mk "custom" (Value.str "x")) =
      some (Attr.mk "custom" (Value.str "x")) ∧
    replaceAttr [] (Attr.mk "custom" (Value.str "x")) =
      some (Attr.mk "custom" (Value.str "x")) :=
  ⟨c6_replaceAttr_frame.1 ["g"] _ (by simp),
   c6_replaceAttr_frame.2 _ (by decide)⟩

/-! ## HTTP middleware and trace extraction (`http.go`) -/

/-- Embedding of `strings.Cut` for a single-character separator, over the
character list of the string: `(before, after, found)`; when the separator
does not occur, `(s, [], false)`. -/
def cutChar : List Char → Char → List Char × List Char × Bool
  | [], _ => ([], [], false)
  | x :: xs, c =>
    if x = c then ([], xs, true)
    else
      let r := cutChar xs c
      (x :: r.1, r.2.1, r.2.2)

/-- Embedding of `traceContext` (`http.go`): take the `X-Cloud-Trace-Context`
header value up to the first `;`, then split that prefix at the first `/`
into the raw trace and span ids.  `Header.Get` on an absent header yields
the empty string. -/
def traceContext (header : Option String) : String × String :=
  let hv := (header.getD "").data
  let s := (cutChar hv ';').1
  let r := cutChar s '/'
  (String.mk r.1, String.mk r.2.1)

/-- Embedding of `traceAttrs` (`http.go`): nothing without a project id or
trace id, otherwise the formatted trace resource name plus the span id when
non-empty (via `optionalStrings`, which drops empty values). -/
def traceAttrs (projectID trace span : String) : Option (List Attr) :=
  if projectID = "" ∨ trace = "" then some []
  else optionalStrings
    ["logging.googleapis.com/trace", "projects/" ++ projectID ++ "/traces/" ++ trace,
     "logging.googleapis.com/spanId", span]

/-- The fields of an inbound `http.Request` read by the middleware. -/
structure Request where
  method : String
  url : String
  userAgent : String
  remoteAddr : String
  referer : String
  proto : String
  traceHeader : Option String

/-- The per-request context entry `httpInfo` (`http.go`). -/
structure HttpInfo where
  req : Value
  trace : String
  span : String

/-- Embedding of `middleware.ServeHTTP` (`http.go`): the request-context
entry it computes and stores, built from the twelve-argument
`optionalStrings` call and `traceContext`.  `none` models a panic
(impossible: twelve arguments, see `c10_optionalStrings_call_sites`). -/
def serveHTTPInfo (r : Request) : Option HttpInfo :=
  (optionalStrings
    ["requestMethod", r.method, "requestUrl", r.url, "userAgent", r.userAgent,
     "remoteIp", r.remoteAddr, "referer", r.referer, "protocol", r.proto]).map
    (fun attrs =>
      let ts := traceContext r.traceHeader
      ⟨Value.group attrs, ts.1, ts.2⟩)

/-- Embedding of `httpAttrs` (`http.go`): the `ctx.Value` lookup is modelled
as an `Option HttpInfo`; no entry (or a nil entry) yields no attributes. -/
def httpAttrs (ctx : Option HttpInfo) (projectID : String) : Option (List Attr) :=
  match ctx with
  | none => some []
  | some i => (traceAttrs projectID i.trace i.span).map
      (fun ts => attr "httpRequest" i.req :: ts)

/-- The raw trace id as claim C5 words it: the header value up to the first
`;`, truncated at the first `/`. -/
def specRawTrace (hv : String) : String :=
  String.mk ((hv.data.takeWhile (· ≠ ';')).takeWhile (· ≠ '/'))

/-- The raw span id as claim C5 words it: what follows the first `/` of the
header value's prefix before the first `;` (empty when there is no `/`). -/
def specRawSpan (hv : String) : String :=
  String.mk (((hv.data.takeWhile (· ≠ ';')).dropWhile (· ≠ '/')).drop 1)

theorem cutChar_fst (s : List Char) (c : Char) :
    (cutChar s c).1 = s.takeWhile (· ≠ c) := by
  induction s with
  | nil => rfl
  | cons x xs ih =>
    by_cases hx : x = c <;> simp [cutChar, hx, List.takeWhile_cons, ih]

theorem cutChar_snd (s : List Char) (c : Char) :
    (cutChar s c).2.1 = (s.dropWhile (· ≠ c)).drop 1 := by
  induction s with
  | nil => rfl
  | cons x xs ih =>
    by_cases hx : x = c <;> simp [cutChar, hx, List.dropWhile_cons, ih]

theorem projects_prefix_ne_empty (p t : String) :
    "projects/" ++ p ++ "/traces/" ++ t ≠ "" := by
  intro h
  have hl := congrArg String.length h
  rw [String.length_append, String.length_append, String.length_append] at hl
  have h1 : ("projects/" : String).length = 9 := rfl
  have h2 : ("/traces/" : String).length = 8 := rfl
  have h3 : ("" : String).length = 0 := rfl
  omega

/-! ## The handler's `Handle` (`handler.go`) -/

/-- A time instant together with whether it is expressed in UTC; `UTC()`
keeps the instant and normalizes the location. -/
structure Time where
  instant : Int
  isUTC : Bool

def Time.toUTC (t : Time) : Time := ⟨t.instant, true⟩

/-- The `slog.Record` fields that `Handler.Handle` reads and rebuilds. -/
structure Record where
  time : Time
  level : Int
  message : String
  pc : Nat
  attrs : List Attr

/-- Handler state at emission time, as values: resolved project id,
persistent attributes, open group names innermost-first. -/
structure Handler where
  projectID : String
  attrs : List Attr
  groups : List String

/-- Modelled from the spec: the function `jsonPayload` called by
`Handler.Handle` is missing from the sources (only its call site is
present).  Per the spec and the comments in `Handler.Handle`, when custom
attributes exist the record is emitted as a JSON payload whose message
field carries the log message and whose remaining fields are the folded
attribute set of §4.3 (`customAttrs`), the whole under the `jsonPayload`
key. -/
def jsonPayload (r : Record) (attrs : List Attr) (groups : List String) : Attr :=
  attr JSONPayloadKey
    (Value.group (Attr.mk MessageKey (Value.str r.message) :: customAttrs r.attrs attrs groups))

/-- Embedding of `Handler.Handle` (`handler.go`): the external JSON
emitter's own handle entry point is the parameter `baseHandle` (the Go
field `h.base`), the context is the `Option HttpInfo` lookup result, and
`Option Err` models Go's nil-able `error`.  The outer `Option` models a
panic inside `httpAttrs` (impossible, see
`c10_optionalStrings_call_sites`). -/
def Handler.Handle {Err : Type} (h : Handler) (baseHandle : Record → Option Err)
    (ctx : Option HttpInfo) (r : Record) : Option (Option Err) :=
  (httpAttrs ctx h.projectID).map (fun hattrs =>
    let hasJSONPayload := h.attrs.length + r.attrs.length > 0
    let textPayload := if hasJSONPayload then "" else r.message
    baseHandle
      { time := r.time.toUTC, level := r.level, message := textPayload, pc := r.pc,
        attrs := hattrs ++ (if hasJSONPayload then [jsonPayload r h.attrs h.groups] else []) })

/-! ### Claims about the HTTP path and `Handle` -/

theorem optionalStrings_even_some (args : List String) (h : args.length % 2 = 0) :
    optionalStrings args ≠ none := by
  unfold optionalStrings
  split_ifs <;> simp_all

theorem traceAttrs_some (projectID trace span : String) :
    traceAttrs projectID trace span =
      some (if projectID = "" ∨ trace = "" then []
        else attr "logging.googleapis.com/trace"
            (Value.str ("projects/" ++ projectID ++ "/traces/" ++ trace)) ::
          if span = "" then [] else [attr "logging.googleapis.com/spanId" (Value.str span)]) := by
  unfold traceAttrs
  by_cases h : projectID = "" ∨ trace = ""
  · simp [h]
  · simp only [h, if_false, if_neg h]
    simp [optionalStrings, optionalStringsLoop, projects_prefix_ne_empty, attr]

theorem httpAttrs_some (ctx : Option HttpInfo) (projectID : String) :
    ∃ as, httpAttrs ctx projectID = some as := by
  cases ctx with
  | none => exact ⟨[], rfl⟩
  | some i => exact ⟨_, by rw [httpAttrs, traceAttrs_some]; rfl⟩

/-- C5: an absent `X-Cloud-Trace-Context` header yields empty raw trace and
span ids; a present header value is cut at the first `;` and the prefix is
split at the first `/` into (trace, span); `traceAttrs` produces nothing
when the project id or the trace id is empty, and otherwise exactly the
trace attribute `projects/<project>/traces/<trace-id>` plus — only for a
non-empty span id — the span-id attribute with the raw span id; the
middleware stores exactly the ids `traceContext` extracts. -/
theorem c5_trace_extraction_and_attrs :
    traceContext none = ("", "") ∧
    (∀ hv : String, traceContext (some hv) = (specRawTrace hv, specRawSpan hv)) ∧
    (∀ projectID trace span : String, projectID = "" ∨ trace = "" →
      traceAttrs projectID trace span = some []) ∧
    (∀ projectID trace span : String, projectID ≠ "" → trace ≠ "" →
      traceAttrs projectID trace span = some
        (attr "logging.googleapis.com/trace"
            (Value.str ("projects/" ++ projectID ++ "/traces/" ++ trace)) ::
          if span = "" then [] else [attr "logging.googleapis.com/spanId" (Value.str span)])) ∧
    (∀ r : Request, (serveHTTPInfo r).map (fun i => (i.trace, i.span)) =
      some (traceContext r.traceHeader)) := by
  refine ⟨rfl, ?_, ?_, ?_, ?_⟩
  · intro hv
    unfold traceContext specRawTrace specRawSpan
    simp [cutChar_fst, cutChar_snd]
  · intro projectID trace span h
    unfold traceAttrs
    simp [h]
  · intro projectID trace span h1 h2
    rw [traceAttrs_some]
    simp [h1, h2]
  · intro r
    simp [serveHTTPInfo, optionalStrings]

/-- Witness for C5: the spec's own example header, project `"test"`, raw
ids `abc`/`123`. -/
theorem c5_witness :
    ("test" : String) ≠ "" ∧ ("abc" : String) ≠ "" ∧
    traceAttrs "test" "abc" "123" = some
      (attr "logging.googleapis.com/trace"
          (Value.str ("projects/" ++ "test" ++ "/traces/" ++ "abc")) ::
        if ("123" : String) = "" then []
        else [attr "logging.googleapis.com/spanId" (Value.str "123")]) :=
  ⟨by decide, by decide,
   c5_trace_extraction_and_attrs.2.2.2.1 "test" "abc" "123" (by decide) (by decide)⟩

/-- C7: `Handle` forwards the rebuilt record to the underlying JSON
emitter's handle call and returns exactly that call's error value (no
retry, no buffering, no suppression), and when the context carries no
request entry it appends no httpRequest or trace attribute — and that
absence is not an error: the result is still exactly the emitter's. -/
theorem c7_handle_error_passthrough {Err : Type} :
    (∀ (h : Handler) (baseHandle : Record → Option Err) (ctx : Option HttpInfo) (r : Record),
      ∃ s : Record, Handler.Handle h baseHandle ctx r = some (baseHandle s)) ∧
    (∀ (h : Handler) (baseHandle : Record → Option Err) (r : Record),
      Handler.Handle h baseHandle none r = some (baseHandle
        { time := r.time.toUTC, level := r.level,
          message := if h.attrs.length + r.attrs.length > 0 then "" else r.message,
          pc := r.pc,
          attrs := if h.attrs.length + r.attrs.length > 0
            then [jsonPayload r h.attrs h.groups] else [] })) := by
  constructor
  · intro h baseHandle ctx r
    obtain ⟨as, has⟩ := httpAttrs_some ctx h.projectID
    exact ⟨_, by rw [Handler.Handle, has]; rfl⟩
  · intro h baseHandle r
    rw [Handler.Handle]
    show some _ = some _
    simp only [Option.map_some]
    by_cases hj : h.attrs.length + r.attrs.length > 0 <;> simp [hj]

/-- C10: `optionalStrings` panics (modelled as `none`) on every odd-length
argument list, and every call site passes an even number of alternating
key/value arguments — six in `replaceAttr`'s source-location group, twelve
in the middleware's httpRequest group, four in `traceAttrs` — so the panic
branch is unreachable in every execution and none of the package's
operations can panic. -/
theorem c10_optionalStrings_call_sites :
    (∀ args : List String, args.length % 2 = 1 → optionalStrings args = none) ∧
    (∀ (groups : List String) (a : Attr), replaceAttr groups a ≠ none) ∧
    (∀ projectID trace span : String, traceAttrs projectID trace span ≠ none) ∧
    (∀ r : Request, serveHTTPInfo r ≠ none) ∧
    (∀ (ctx : Option HttpInfo) (projectID : String), httpAttrs ctx projectID ≠ none) := by
  refine ⟨?_, ?_, ?_, ?_, ?_⟩
  · intro args h
    unfold optionalStrings
    have : args.length ≠ 0 := by omega
    simp [this, h]
  · intro groups a
    unfold replaceAttr
    split_ifs <;> try simp
    · cases a.value <;> simp
    · cases a.value <;> simp
      split_ifs <;> simp
    · simp only [groupValue, Option.map_eq_none']
      exact optionalStrings_even_some _ (by simp)
  · intro projectID trace span
    rw [traceAttrs_some]
    simp
  · intro r
    simp [serveHTTPInfo, optionalStrings]
  · intro ctx projectID
    obtain ⟨as, has⟩ := httpAttrs_some ctx projectID
    simp [has]

/-- Witness for C10: a one-element argument list is odd and panics. -/
theorem c10_witness :
    (["x"] : List String).length % 2 = 1 ∧ optionalStrings ["x"] = none :=
  ⟨by decide, c10_optionalStrings_call_sites.1 ["x"] (by decide)⟩

/-! ## Go slices with explicit backing storage

Claims C4 and C9 are about mutation and sharing of the backing arrays of
the handler's two slices, so the slices are embedded with their storage
made explicit: a slice header holds an array id (`none` for a nil slice),
an offset and a length; a memory is the list of backing arrays (an entry's
list length is the array's capacity — `slices.Clone` is modelled with the
minimal capacity Go is allowed to choose).  `append` writes in place when
the spare capacity suffices and allocates otherwise, as in Go. -/

/-- A Go slice header: backing array id (`none` = nil slice), offset,
length. -/
structure GoSlice where
  arr : Option Nat
  off : Nat
  len : Nat

/-- A backing store: array ids are indices into `arrays`. -/
structure Mem (α : Type) where
  arrays : List (List α)

/-- The elements a slice denotes. -/
def Mem.readSlice (m : Mem α) (s : GoSlice) : List α :=
  match s.arr with
  | none => []
  | some i => (((m.arrays[i]?).getD []).drop s.off).take s.len

/-- A slice header is well formed when its array exists and the view fits
inside it; a nil slice has length 0. -/
def Mem.wf (m : Mem α) (s : GoSlice) : Prop :=
  match s.arr with
  | none => s.len = 0
  | some i => i < m.arrays.length ∧ s.off + s.len ≤ ((m.arrays[i]?).getD []).length

/-- Allocate a fresh backing array holding `xs`. -/
def Mem.alloc (m : Mem α) (xs : List α) : Mem α × GoSlice :=
  (⟨m.arrays ++ [xs]⟩, ⟨some m.arrays.length, 0, xs.length⟩)

/-- Write `xs` into `l` starting at position `i`. -/
def writeAt (l : List α) (i : Nat) : List α → List α
  | [] => l
  | x :: xs => writeAt (l.set i x) (i + 1) xs

/-- Embedding of Go's `append(s, xs...)`: reuse the backing array when the
spare capacity suffices (mutating it in place), otherwise allocate a fresh
one holding the old contents followed by `xs`. -/
def Mem.append (m : Mem α) (s : GoSlice) (xs : List α) : Mem α × GoSlice :=
  if xs.isEmpty then (m, s)
  else match s.arr with
    | none => m.alloc xs
    | some i =>
      let a := (m.arrays[i]?).getD []
      if s.off + s.len + xs.length ≤ a.length then
        (⟨m.arrays.set i (writeAt a (s.off + s.len) xs)⟩,
         ⟨some i, s.off, s.len + xs.length⟩)
      else m.alloc (m.readSlice s ++ xs)

/-- Embedding of `slices.Clone`: an empty clone carries no storage,
otherwise the contents are copied into a fresh array. -/
def Mem.clone (m : Mem α) (s : GoSlice) : Mem α × GoSlice :=
  if s.len = 0 then (m, ⟨none, 0, 0⟩) else m.alloc (m.readSlice s)

/-- Two slice headers share no backing storage when no array id is common
to both (a nil slice shares nothing). -/
def GoSlice.disjointFrom (s t : GoSlice) : Prop :=
  ∀ i, s.arr = some i → t.arr ≠ some i

/-! ### Memory lemmas -/

theorem Mem.readSlice_length (m : Mem α) (s : GoSlice) (h : m.wf s) :
    (m.readSlice s).length = s.len := by
  cases harr : s.arr with
  | none =>
    simp only [Mem.wf, harr] at h
    simp [Mem.readSlice, harr, h]
  | some i =>
    simp only [Mem.wf, harr] at h
    simp only [Mem.readSlice, harr, List.length_take, List.length_drop]
    omega

theorem Mem.alloc_preserves (m : Mem α) (xs : List α) (t : GoSlice) (h : m.wf t) :
    (m.alloc xs).1.readSlice t = m.readSlice t ∧ (m.alloc xs).1.wf t := by
  cases harr : t.arr with
  | none =>
    simp only [Mem.wf, harr] at h
    simp [Mem.alloc, Mem.readSlice, Mem.wf, harr, h]
  | some i =>
    simp only [Mem.wf, harr] at h
    have hi : i < m.arrays.length := h.1
    simp only [Mem.alloc, Mem.readSlice, Mem.wf, harr]
    rw [List.getElem?_append_left hi]
    refine ⟨rfl, ?_, h.2⟩
    simp only [List.length_append]
    omega

theorem Mem.alloc_new (m : Mem α) (xs : List α) :
    (m.alloc xs).1.readSlice (m.alloc xs).2 = xs ∧
    (m.alloc xs).1.wf (m.alloc xs).2 ∧
    (m.alloc xs).2 = ⟨some m.arrays.length, 0, xs.length⟩ ∧
    (((m.alloc xs).1.arrays[m.arrays.length]?).getD []) = xs := by
  have hget : (m.arrays ++ [xs])[m.arrays.length]? = some xs := by
    rw [List.getElem?_append_right (Nat.le_refl _)]
    simp
  simp only [Mem.alloc, Mem.readSlice, Mem.wf]
  refine ⟨?_, ?_, trivial, by simp [hget]⟩
  · simp [hget]
  · simp [hget, List.length_append]

theorem Mem.clone_preserves (m : Mem α) (s t : GoSlice) (h : m.wf t) :
    (m.clone s).1.readSlice t = m.readSlice t ∧ (m.clone s).1.wf t := by
  unfold Mem.clone
  split_ifs with hlen
  · exact ⟨rfl, h⟩
  · exact Mem.alloc_preserves m _ t h

theorem Mem.clone_length_le (m : Mem α) (s : GoSlice) :
    m.arrays.length ≤ (m.clone s).1.arrays.length := by
  unfold Mem.clone Mem.alloc
  split_ifs <;> simp

theorem Mem.readSlice_len_zero (m : Mem α) (s : GoSlice) (h : s.len = 0) :
    m.readSlice s = [] := by
  unfold Mem.readSlice
  cases harr : s.arr <;> simp [h]

theorem Mem.clone_new (m : Mem α) (s : GoSlice) (h : m.wf s) :
    (m.clone s).1.readSlice (m.clone s).2 = m.readSlice s ∧
    (m.clone s).1.wf (m.clone s).2 ∧
    (∀ j, (m.clone s).2.arr = some j → m.arrays.length ≤ j) ∧
    (∀ j, (m.clone s).2.arr = some j →
      (((m.clone s).1.arrays[j]?).getD []).length =
        (m.clone s).2.off + (m.clone s).2.len) := by
  unfold Mem.clone
  split_ifs with hlen
  · refine ⟨?_, by simp [Mem.wf], by simp, by simp⟩
    rw [Mem.readSlice_len_zero m s hlen]
    rfl
  · obtain ⟨hr, hw, harr, hcontent⟩ := Mem.alloc_new m (m.readSlice s)
    refine ⟨hr, hw, ?_, ?_⟩
    · intro j hj
      rw [harr] at hj
      simp at hj
      omega
    · intro j hj
      rw [harr] at hj
      simp at hj
      subst hj
      rw [harr]
      simp only [hcontent]
      rw [Mem.readSlice_length m s h]
      omega

theorem Mem.append_full_spec (m : Mem α) (s : GoSlice) (xs : List α) (hwf : m.wf s)
    (hfull : ∀ j, s.arr = some j → (((m.arrays[j]?).getD []).length = s.off + s.len)) :
    ((m.append s xs).1.readSlice (m.append s xs).2 = m.readSlice s ++ xs) ∧
    (m.append s xs).1.wf (m.append s xs).2 ∧
    (∀ t, m.wf t → (m.append s xs).1.readSlice t = m.readSlice t ∧ (m.append s xs).1.wf t) ∧
    (∀ j, (m.append s xs).2.arr = some j → s.arr = some j ∨ m.arrays.length ≤ j) := by
  cases hxs : xs.isEmpty with
  | true =>
    have hx : xs = [] := List.isEmpty_iff.mp hxs
    subst hx
    have he : m.append s [] = (m, s) := by unfold Mem.append; simp
    rw [he]
    exact ⟨by simp, hwf, fun t ht => ⟨rfl, ht⟩, fun j hj => Or.inl hj⟩
  | false =>
    have hxl : xs.length ≠ 0 := by
      intro hc
      rw [List.length_eq_zero] at hc
      subst hc
      simp at hxs
    cases harr : s.arr with
    | none =>
      have hlen : s.len = 0 := by simp only [Mem.wf, harr] at hwf; exact hwf
      have he : m.append s xs = m.alloc xs := by
        unfold Mem.append
        simp [hxs, harr]
      rw [he]
      obtain ⟨hr, hw, hnew, _⟩ := Mem.alloc_new m xs
      refine ⟨?_, hw, fun t ht => Mem.alloc_preserves m xs t ht, ?_⟩
      · rw [hr, Mem.readSlice_len_zero m s hlen]
        rfl
      · intro j hj
        rw [hnew] at hj
        simp at hj
        omega
    | some i =>
      have hcond : ¬ (s.off + s.len + xs.length ≤ ((m.arrays[i]?).getD []).length) := by
        rw [hfull i harr]
        omega
      have he : m.append s xs = m.alloc (m.readSlice s ++ xs) := by
        unfold Mem.append
        simp [hxs, harr, hcond]
      rw [he]
      obtain ⟨hr, hw, hnew, _⟩ := Mem.alloc_new m (m.readSlice s ++ xs)
      refine ⟨hr, hw, fun t ht => Mem.alloc_preserves m _ t ht, ?_⟩
      intro j hj
      rw [hnew] at hj
      simp at hj
      omega

/-! ## The handler with slice-backed state (`handler.go`) -/

/-- The handler as stored in Go memory: project id plus the two slice
headers. -/
structure HandlerM where
  projectID : String
  attrs : GoSlice
  groups : GoSlice

/-- The two backing stores: attribute arrays and group-name arrays. -/
structure HMem where
  attrMem : Mem Attr
  groupMem : Mem String

/-- Embedding of `Handler.clone` (`handler.go`): copy the struct, then
replace both slices by `slices.Clone` copies. -/
def HandlerM.clone (st : HMem) (h : HandlerM) : HMem × HandlerM :=
  let ra := st.attrMem.clone h.attrs
  let rg := st.groupMem.clone h.groups
  (⟨ra.1, rg.1⟩, ⟨h.projectID, ra.2, rg.2⟩)

/-- Embedding of `Handler.WithAttrs` (`handler.go`): clone the receiver,
then `r.attrs = append(r.attrs, attrs...)`. -/
def HandlerM.withAttrs (st : HMem) (h : HandlerM) (as : List Attr) : HMem × HandlerM :=
  let rc := HandlerM.clone st h
  let ra := rc.1.attrMem.append rc.2.attrs as
  (⟨ra.1, rc.1.groupMem⟩, ⟨rc.2.projectID, ra.2, rc.2.groups⟩)

/-- Embedding of `Handler.WithGroup` (`handler.go`): an empty name returns
the receiver itself; otherwise clone the receiver and prepend the name via
`append([]string{name}, r.groups...)` (a fresh one-element literal array,
then an append of the cloned group names). -/
def HandlerM.withGroup (st : HMem) (h : HandlerM) (name : String) : HMem × HandlerM :=
  if name = "" then (st, h)
  else
    let rc := HandlerM.clone st h
    let rl := rc.1.groupMem.alloc [name]
    let rg := rl.1.append rl.2 (rl.1.readSlice rc.2.groups)
    (⟨rc.1.attrMem, rg.1⟩, ⟨rc.2.projectID, rc.2.attrs, rg.2⟩)

/-! ### Derivation lemmas -/

theorem withAttrs_spec (st : HMem) (h : HandlerM) (as : List Attr)
    (ha : st.attrMem.wf h.attrs) (hg : st.groupMem.wf h.groups) :
    (HandlerM.withAttrs st h as).1.attrMem.readSlice h.attrs = st.attrMem.readSlice h.attrs ∧
    (HandlerM.withAttrs st h as).1.groupMem.readSlice h.groups = st.groupMem.readSlice h.groups ∧
    (HandlerM.withAttrs st h as).1.attrMem.readSlice (HandlerM.withAttrs st h as).2.attrs =
      st.attrMem.readSlice h.attrs ++ as ∧
    (HandlerM.withAttrs st h as).1.groupMem.readSlice (HandlerM.withAttrs st h as).2.groups =
      st.groupMem.readSlice h.groups ∧
    (∀ j, (HandlerM.withAttrs st h as).2.attrs.arr = some j → st.attrMem.arrays.length ≤ j) ∧
    (∀ j, (HandlerM.withAttrs st h as).2.groups.arr = some j → st.groupMem.arrays.length ≤ j) ∧
    (HandlerM.withAttrs st h as).2.projectID = h.projectID := by
  obtain ⟨hca_pres, hca_wf⟩ := Mem.clone_preserves st.attrMem h.attrs h.attrs ha
  obtain ⟨hca_read, hca_wf2, hca_fresh, hca_full⟩ := Mem.clone_new st.attrMem h.attrs ha
  obtain ⟨hcg_pres, hcg_wf⟩ := Mem.clone_preserves st.groupMem h.groups h.groups hg
  obtain ⟨hcg_read, hcg_wf2, hcg_fresh, hcg_full⟩ := Mem.clone_new st.groupMem h.groups hg
  obtain ⟨hap_read, hap_wf, hap_pres, hap_fresh⟩ :=
    Mem.append_full_spec (st.attrMem.clone h.attrs).1 (st.attrMem.clone h.attrs).2 as
      hca_wf2 hca_full
  unfold HandlerM.withAttrs HandlerM.clone
  refine ⟨?_, hcg_pres, ?_, hcg_read, ?_, ?_, rfl⟩
  · exact (hap_pres h.attrs hca_wf).1.trans hca_pres
  · rw [hap_read, hca_read]
  · intro j hj
    rcases hap_fresh j hj with hc | hc
    · exact hca_fresh j hc
    · calc st.attrMem.arrays.length ≤ (st.attrMem.clone h.attrs).1.arrays.length :=
            Mem.clone_length_le st.attrMem h.attrs
        _ ≤ j := hc
  · exact hcg_fresh

theorem withGroup_empty (st : HMem) (h : HandlerM) :
    HandlerM.withGroup st h "" = (st, h) := by
  unfold HandlerM.withGroup
  simp

theorem withGroup_spec (st : HMem) (h : HandlerM) (name : String) (hn : name ≠ "")
    (ha : st.attrMem.wf h.attrs) (hg : st.groupMem.wf h.groups) :
    (HandlerM.withGroup st h name).1.attrMem.readSlice h.attrs =
      st.attrMem.readSlice h.attrs ∧
    (HandlerM.withGroup st h name).1.groupMem.readSlice h.groups =
      st.groupMem.readSlice h.groups ∧
    (HandlerM.withGroup st h name).1.attrMem.readSlice
      (HandlerM.withGroup st h name).2.attrs = st.attrMem.readSlice h.attrs ∧
    (HandlerM.withGroup st h name).1.groupMem.readSlice
      (HandlerM.withGroup st h name).2.groups = name :: st.groupMem.readSlice h.groups ∧
    (∀ j, (HandlerM.withGroup st h name).2.attrs.arr = some j →
      st.attrMem.arrays.length ≤ j) ∧
    (∀ j, (HandlerM.withGroup st h name).2.groups.arr = some j →
      st.groupMem.arrays.length ≤ j) ∧
    (HandlerM.withGroup st h name).2.projectID = h.projectID := by
  obtain ⟨hca_pres, hca_wf⟩ := Mem.clone_preserves st.attrMem h.attrs h.attrs ha
  obtain ⟨hca_read, hca_wf2, hca_fresh, hca_full⟩ := Mem.clone_new st.attrMem h.attrs ha
  obtain ⟨hcg_pres, hcg_wf⟩ := Mem.clone_preserves st.groupMem h.groups h.groups hg
  obtain ⟨hcg_read, hcg_wf2, hcg_fresh, hcg_full⟩ := Mem.clone_new st.groupMem h.groups hg
  obtain ⟨hal_read, hal_wf, hal_arr, hal_content⟩ :=
    Mem.alloc_new (st.groupMem.clone h.groups).1 [name]
  have hal_pres := fun t ht =>
    Mem.alloc_preserves (st.groupMem.clone h.groups).1 [name] t ht
  have hlit_full : ∀ j, ((st.groupMem.clone h.groups).1.alloc [name]).2.arr = some j →
      (((((st.groupMem.clone h.groups).1.alloc [name]).1.arrays[j]?).getD []).length =
        ((st.groupMem.clone h.groups).1.alloc [name]).2.off +
          ((st.groupMem.clone h.groups).1.alloc [name]).2.len) := by
    intro j hj
    rw [hal_arr] at hj
    simp at hj
    subst hj
    rw [hal_arr]
    simp only [hal_content]
    simp
  obtain ⟨hap_read, hap_wf, hap_pres, hap_fresh⟩ :=
    Mem.append_full_spec ((st.groupMem.clone h.groups).1.alloc [name]).1
      ((st.groupMem.clone h.groups).1.alloc [name]).2
      (((st.groupMem.clone h.groups).1.alloc [name]).1.readSlice
        (st.groupMem.clone h.groups).2)
      hal_wf hlit_full
  unfold HandlerM.withGroup HandlerM.clone
  rw [if_neg hn]
  refine ⟨hca_pres, ?_, hca_read, ?_, ?_, ?_, rfl⟩
  · exact (hap_pres h.groups ((hal_pres h.groups hcg_wf).2)).1.trans
      (((hal_pres h.groups hcg_wf).1).trans hcg_pres)
  · rw [hap_read, hal_read]
    rw [(hal_pres (st.groupMem.clone h.groups).2 hcg_wf2).1, hcg_read]
    rfl
  · exact hca_fresh
  · intro j hj
    rcases hap_fresh j hj with hc | hc
    · rw [hal_arr] at hc
      simp at hc
      subst hc
      exact Mem.clone_length_le st.groupMem h.groups
    · calc st.groupMem.arrays.length
          ≤ (st.groupMem.clone h.groups).1.arrays.length :=
            Mem.clone_length_le st.groupMem h.groups
        _ ≤ ((st.groupMem.clone h.groups).1.alloc [name]).1.arrays.length := by
            simp [Mem.alloc]
        _ ≤ j := hc

/-- Freshness beyond the old memory plus well-formedness of the old slice
gives storage disjointness. -/
theorem disjoint_of_fresh {m : Mem α} {sNew sOld : GoSlice}
    (hfresh : ∀ j, sNew.arr = some j → m.arrays.length ≤ j)
    (hwf : m.wf sOld) : sNew.disjointFrom sOld := by
  intro i hi hcontra
  have h1 := hfresh i hi
  have h2 : i < m.arrays.length := by
    unfold Mem.wf at hwf
    rw [hcontra] at hwf
    exact hwf.1
  omega

/-! ### Claims C4 and C9 -/

/-- A memory holding one group-name array. -/
def c4Mem : HMem := ⟨⟨[]⟩, ⟨[["g"]]⟩⟩

/-- A handler whose group slice views that array. -/
def c4Handler : HandlerM := ⟨"", ⟨none, 0, 0⟩, ⟨some 0, 0, 1⟩⟩

/-- C4 counterexample: `WithGroup("")` returns the receiver itself, so for
the empty group name the "derived" handler's group list shares its backing
array (id 0) with the parent's — the claim's "share no mutable backing
storage" fails for that argument. -/
theorem c4_counterexample :
    (HandlerM.withGroup c4Mem c4Handler "").2.groups.arr = some 0 ∧
    c4Handler.groups.arr = some 0 ∧
    ¬ (HandlerM.withGroup c4Mem c4Handler "").2.groups.disjointFrom c4Handler.groups := by
  refine ⟨rfl, rfl, fun hdisj => hdisj 0 rfl rfl⟩

/-- C4 as amended: `WithAttrs` (for every argument list) and `WithGroup`
(for every non-empty name) never mutate the receiver — afterwards the
parent's attribute and group lists read exactly as before — and the derived
handler's slices live in backing arrays disjoint from the parent's, holding
the expected copies; `WithGroup("")` instead returns the receiver itself
unchanged (sharing everything but mutating nothing). -/
theorem c4_no_mutation_amended :
    ∀ (st : HMem) (h : HandlerM),
      st.attrMem.wf h.attrs → st.groupMem.wf h.groups →
      (∀ as : List Attr,
        (HandlerM.withAttrs st h as).1.attrMem.readSlice h.attrs =
            st.attrMem.readSlice h.attrs ∧
        (HandlerM.withAttrs st h as).1.groupMem.readSlice h.groups =
            st.groupMem.readSlice h.groups ∧
        (HandlerM.withAttrs st h as).1.attrMem.readSlice
            (HandlerM.withAttrs st h as).2.attrs =
          st.attrMem.readSlice h.attrs ++ as ∧
        (HandlerM.withAttrs st h as).1.groupMem.readSlice
            (HandlerM.withAttrs st h as).2.groups =
          st.groupMem.readSlice h.groups ∧
        (HandlerM.withAttrs st h as).2.attrs.disjointFrom h.attrs ∧
        (HandlerM.withAttrs st h as).2.groups.disjointFrom h.groups) ∧
      (∀ name : String, name ≠ "" →
        (HandlerM.withGroup st h name).1.attrMem.readSlice h.attrs =
            st.attrMem.readSlice h.attrs ∧
        (HandlerM.withGroup st h name).1.groupMem.readSlice h.groups =
            st.groupMem.readSlice h.groups ∧
        (HandlerM.withGroup st h name).2.attrs.disjointFrom h.attrs ∧
        (HandlerM.withGroup st h name).2.groups.disjointFrom h.groups) ∧
      HandlerM.withGroup st h "" = (st, h) := by
  intro st h ha hg
  refine ⟨?_, ?_, withGroup_empty st h⟩
  · intro as
    obtain ⟨h1, h2, h3, h4, h5, h6, _⟩ := withAttrs_spec st h as ha hg
    exact ⟨h1, h2, h3, h4, disjoint_of_fresh h5 ha, disjoint_of_fresh h6 hg⟩
  · intro name hn
    obtain ⟨h1, h2, h3, h4, h5, h6, _⟩ := withGroup_spec st h name hn ha hg
    exact ⟨h1, h2, disjoint_of_fresh h5 ha, disjoint_of_fresh h6 hg⟩

/-- Witness for C4 (amended): a concrete derivation from an empty handler;
the child's attribute slice shares no storage with the parent's. -/
theorem c4_witness :
    Mem.wf (⟨[]⟩ : Mem Attr) ⟨none, 0, 0⟩ ∧
    Mem.wf (⟨[]⟩ : Mem String) ⟨none, 0, 0⟩ ∧
    (HandlerM.withAttrs ⟨⟨[]⟩, ⟨[]⟩⟩ ⟨"", ⟨none, 0, 0⟩, ⟨none, 0, 0⟩⟩
        [Attr.mk "k" (Value.str "v")]).2.attrs.disjointFrom ⟨none, 0, 0⟩ :=
  ⟨rfl, rfl,
   ((c4_no_mutation_amended ⟨⟨[]⟩, ⟨[]⟩⟩ ⟨"", ⟨none, 0, 0⟩, ⟨none, 0, 0⟩⟩ rfl rfl).1
      [Attr.mk "k" (Value.str "v")]).2.2.2.2.1⟩

/-- C9: `WithGroup("")` returns the very same handler and memory (identity,
a no-op), and for every non-empty name `WithGroup` yields a new handler
whose open-group list reads as the name prepended (innermost) to the
parent's group list, with the same attributes and project id, while the
parent's lists read exactly as before. -/
theorem c9_withGroup_prepend :
    (∀ (st : HMem) (h : HandlerM), HandlerM.withGroup st h "" = (st, h)) ∧
    (∀ (st : HMem) (h : HandlerM) (name : String), name ≠ "" →
      st.attrMem.wf h.attrs → st.groupMem.wf h.groups →
      (HandlerM.withGroup st h name).1.groupMem.readSlice
          (HandlerM.withGroup st h name).2.groups =
        name :: st.groupMem.readSlice h.groups ∧
      (HandlerM.withGroup st h name).1.attrMem.readSlice
          (HandlerM.withGroup st h name).2.attrs = st.attrMem.readSlice h.attrs ∧
      (HandlerM.withGroup st h name).2.projectID = h.projectID ∧
      (HandlerM.withGroup st h name).1.attrMem.readSlice h.attrs =
        st.attrMem.readSlice h.attrs ∧
      (HandlerM.withGroup st h name).1.groupMem.readSlice h.groups =
        st.groupMem.readSlice h.groups) := by
  refine ⟨withGroup_empty, ?_⟩
  intro st h name hn ha hg
  obtain ⟨h1, h2, h3, h4, _, _, h7⟩ := withGroup_spec st h name hn ha hg
  exact ⟨h4, h3, h7, h1, h2⟩

/-- Witness for C9: prepending the concrete group name `"outer"` to an
empty handler. -/
theorem c9_witness :
    ("outer" : String) ≠ "" ∧
    Mem.wf (⟨[]⟩ : Mem Attr) ⟨none, 0, 0⟩ ∧
    Mem.wf (⟨[]⟩ : Mem String) ⟨none, 0, 0⟩ ∧
    (HandlerM.withGroup ⟨⟨[]⟩, ⟨[]⟩⟩ ⟨"", ⟨none, 0, 0⟩, ⟨none, 0, 0⟩⟩ "outer").1.groupMem.readSlice
        (HandlerM.withGroup ⟨⟨[]⟩, ⟨[]⟩⟩ ⟨"", ⟨none, 0, 0⟩, ⟨none, 0, 0⟩⟩ "outer").2.groups =
      "outer" :: Mem.readSlice (⟨[]⟩ : Mem String) ⟨none, 0, 0⟩ :=
  ⟨by decide, rfl, rfl,
   (c9_withGroup_prepend.2 ⟨⟨[]⟩, ⟨[]⟩⟩ ⟨"", ⟨none, 0, 0⟩, ⟨none, 0, 0⟩⟩ "outer"
      (by decide) rfl rfl).1⟩

end Aelog
